import Mathlib

/- Shallow embedding of the upcie userspace NVMe driver core.

   C machine integers are modelled as Nat with explicit reduction mod 2^64
   (or 2^32) at the points where the C code can overflow.  Fallible C
   functions that return a negative errno, or NULL with errno set, are
   modelled as Except with the errno value as the error.  Linked lists that
   the C code threads through raw memory (the heap free list) are modelled
   as Lean lists in traversal order, with each node carrying the address the
   C node lives at. -/

/- errno values used by the embedded code (Linux asm-generic) -/

def EINVAL : Nat := 22

def ENOMEM : Nat := 12

def EAGAIN : Nat := 11

def UINT16_MAX : Nat := 65535

deriving instance DecidableEq for Except

/- ### src/include/upcie/bitfield.h -/

/-- bitfield_get from bitfield.h: (val >> offset) & ((1ULL << width) - 1). -/
def bitfield_get (val offset width : Nat) : Nat :=
  (val >>> offset) &&& ((1 <<< width) - 1)

/-- bitfield_set from bitfield.h: mask = ((1ULL << width) - 1) << offset;
    (val & ~mask) | ((field << offset) & mask).  On uint64, ~mask is
    mask XOR 0xFFFFFFFFFFFFFFFF. -/
def bitfield_set (val offset width field : Nat) : Nat :=
  let mask := ((1 <<< width) - 1) <<< offset
  (val &&& ((2 ^ 64 - 1) ^^^ mask)) ||| ((field <<< offset) &&& mask)

/- ### src/include/upcie/nvme/nvme_mmio.h : CC / CAP accessors -/

/-- CC.EN getter: bit 0, width 1. -/
def nvme_reg_cc_get_en (cc : Nat) : Nat := bitfield_get cc 0 1

/-- CC.IOCQES getter: bits 20-23 in the source. -/
def nvme_reg_cc_get_iocqes (cc : Nat) : Nat := bitfield_get cc 20 4

/-- CC.IOSQES getter: the source reads bits 24-27 (its comment says so too),
    which does not match the setter below nor the NVMe register layout. -/
def nvme_reg_cc_get_iosqes (cc : Nat) : Nat := bitfield_get cc 24 4

/-- CC.EN setter: bit 0, width 1. -/
def nvme_reg_cc_set_en (cc val : Nat) : Nat := bitfield_set cc 0 1 val

/-- CC.IOSQES setter: bits 16-19. -/
def nvme_reg_cc_set_iosqes (cc val : Nat) : Nat := bitfield_set cc 16 4 val

/-- CC.IOCQES setter: bits 20-23. -/
def nvme_reg_cc_set_iocqes (cc val : Nat) : Nat := bitfield_set cc 20 4 val

/-- CAP.DSTRD getter: bits 32-35. -/
def nvme_reg_cap_get_dstrd (cap : Nat) : Nat := bitfield_get cap 32 4

/- ### src/include/upcie/pci.h -/

/-- pci_addr_get_function: bdf & 0x7. -/
def pci_addr_get_function (bdf : Nat) : Nat := bdf &&& 0x7

/-- pci_addr_get_device: (bdf >> 3) & 0x1f. -/
def pci_addr_get_device (bdf : Nat) : Nat := (bdf >>> 3) &&& 0x1f

/-- pci_addr_get_bus: (bdf >> 8) & 0xff. -/
def pci_addr_get_bus (bdf : Nat) : Nat := (bdf >>> 8) &&& 0xff

/-- pci_addr_get_domain: (bdf >> 16) & 0xffff. -/
def pci_addr_get_domain (bdf : Nat) : Nat := (bdf >>> 16) &&& 0xffff

/-- Hex digit test covering both cases, as accepted by the sscanf conversion
    used in pci_addr_from_text. -/
def isHexDigitChar (c : Char) : Bool :=
  ( '0' ≤ c && c ≤ '9') || ( 'a' ≤ c && c ≤ 'f') || ( 'A' ≤ c && c ≤ 'F')

/-- Numeric value of a hex digit. -/
def hexVal (c : Char) : Nat :=
  if '0' ≤ c && c ≤ '9' then c.toNat - '0'.toNat
  else if 'a' ≤ c && c ≤ 'f' then c.toNat - 'a'.toNat + 10
  else c.toNat - 'A'.toNat + 10

/-- Consume up to the given number of further hex digits, accumulating. -/
def scanHexAux : Nat → Nat → List Char → Nat × List Char
  | 0, acc, cs => (acc, cs)
  | _ + 1, acc, [] => (acc, [])
  | w + 1, acc, c :: cs =>
    if isHexDigitChar c then scanHexAux w (acc * 16 + hexVal c) cs
    else (acc, c :: cs)

/-- One %<width>x conversion of sscanf as used on the BDF string: consumes one
    to width hex digits; fails when the first character is not a hex digit.
    The embedding covers hex-digit runs (the inputs the BDF format is defined
    on); the sign and 0x-prefix forms that sscanf would also admit are not
    modelled. -/
def scanHex (width : Nat) (cs : List Char) : Option (Nat × List Char) :=
  match cs with
  | [] => none
  | c :: _ => if isHexDigitChar c then some (scanHexAux width 0 cs) else none

/-- Match one literal character of the sscanf format string. -/
def expectChar (c : Char) : List Char → Option (List Char)
  | d :: cs => if d = c then some cs else none
  | [] => none

/-- The four fields of sscanf(text, "%4x:%2x:%2x.%1x", ...); none when fewer
    than 4 fields convert. -/
def pci_scan_fields (cs : List Char) : Option (Nat × Nat × Nat × Nat) :=
  (scanHex 4 cs).bind fun dr =>
  (expectChar ':' dr.2).bind fun r2 =>
  (scanHex 2 r2).bind fun br =>
  (expectChar ':' br.2).bind fun r4 =>
  (scanHex 2 r4).bind fun er =>
  (expectChar '.' er.2).bind fun r6 =>
  (scanHex 1 r6).map fun fr => (dr.1, br.1, er.1, fr.1)

/-- pci_addr_from_text: parse the BDF, bounds-check the fields, pack
    (domain << 16) | (bus << 8) | (device << 3) | function into the 32-bit
    addr->value. -/
def pci_addr_from_text (text : String) : Except Nat Nat :=
  match pci_scan_fields text.toList with
  | none => .error EINVAL
  | some (domain, bus, device, fn) =>
    if domain > 0xFFFF || bus > 0xFF || device > 0x1F || fn > 0x07 then
      .error EINVAL
    else
      .ok ((((domain <<< 16) ||| (bus <<< 8)) ||| ((device <<< 3) ||| fn)) % 2 ^ 32)

/-- Lowercase hex digit character for one nibble, as printed by printf %x. -/
def hexChar (n : Nat) : Char :=
  if n < 10 then Char.ofNat ( '0'.toNat + n) else Char.ofNat ( 'a'.toNat + (n - 10))

/-- Tail of the hex rendering: emit the digits of n (most significant first)
    in front of acc.  fuel bounds the recursion; any fuel with n < 16 ^ fuel
    yields all digits. -/
def hexDigitsAux : Nat → Nat → List Char → List Char
  | 0, _, acc => acc
  | fuel + 1, n, acc =>
    if n < 16 then hexChar n :: acc
    else hexDigitsAux fuel (n / 16) (hexChar (n % 16) :: acc)

/-- Big-endian lowercase hex digits of n, at least one digit. -/
def hexDigits (n : Nat) : List Char :=
  hexDigitsAux (n + 1) n []

/-- printf %0<width>x: zero-pad the hex digits of n to a minimum width. -/
def hexPad (n width : Nat) : List Char :=
  List.replicate (width - (hexDigits n).length) '0' ++ hexDigits n

/-- pci_addr_to_text: snprintf(text, len, "%04x:%02x:%02x.%01x", domain, bus,
    device, function) of the unpacked fields. -/
def pci_addr_to_text (bdf : Nat) : String :=
  ⟨hexPad (pci_addr_get_domain bdf) 4 ++ ':' :: (hexPad (pci_addr_get_bus bdf) 2 ++
    ':' :: (hexPad (pci_addr_get_device bdf) 2 ++ '.' :: hexPad (pci_addr_get_function bdf) 1))⟩

/-- Lowercase hex digit test (the canonical BDF form uses lowercase only). -/
def isLowerHexChar (c : Char) : Bool :=
  ( '0' ≤ c && c ≤ '9') || ( 'a' ≤ c && c ≤ 'f')

/-- Consume exactly k lowercase hex digits. -/
def lowerHexRun : Nat → List Char → Option (List Char)
  | 0, cs => some cs
  | k + 1, c :: cs => if isLowerHexChar c then lowerHexRun k cs else none
  | _ + 1, [] => none

/-- A string is in canonical lowercase dddd:bb:dd.f form: exactly four, two,
    two and one lowercase hex digits separated by colon, colon, dot, and
    nothing else. -/
def isCanonicalBDF (s : String) : Bool :=
  ((((((lowerHexRun 4 s.toList).bind (expectChar ':')).bind
      (lowerHexRun 2)).bind (expectChar ':')).bind
      (lowerHexRun 2)).bind (expectChar '.')).bind (lowerHexRun 1) = some []

/- ### src/include/upcie/nvme/nvme_request.h -/

def NVME_REQUEST_POOL_LEN : Nat := 1024

/-- One struct nvme_request; only the cid is relevant to the claims (user and
    prp fields are never read by the pool operations). -/
structure nvme_request where
  cid : Nat
  deriving Repr, DecidableEq

/-- struct nvme_request_pool: the reqs array, the cid stack array, and top.
    Lean lists model the two fixed 1024-entry C arrays position by position. -/
structure nvme_request_pool where
  reqs : List nvme_request
  stack : List Nat
  top : Nat
  deriving Repr, DecidableEq

/-- nvme_request_pool_init: top = LEN; for each i, reqs[i].cid = i and
    stack[LEN - 1 - i] = i, i.e. array slot j holds LEN - 1 - j. -/
def nvme_request_pool_init : nvme_request_pool :=
  { reqs := (List.range NVME_REQUEST_POOL_LEN).map fun i => ⟨i⟩
    stack := (List.range NVME_REQUEST_POOL_LEN).map fun j => NVME_REQUEST_POOL_LEN - 1 - j
    top := NVME_REQUEST_POOL_LEN }

/-- nvme_request_alloc: when top is 0, errno = ENOMEM and NULL; otherwise pop
    cid = stack[--top] and return &reqs[cid].  (The debug-build assert on
    top > 0 is disabled in release builds, as the header notes.) -/
def nvme_request_alloc (pool : nvme_request_pool) :
    Except Nat (nvme_request × nvme_request_pool) :=
  if pool.top = 0 then .error ENOMEM
  else
    let cid := pool.stack.getD (pool.top - 1) 0
    .ok (pool.reqs.getD cid ⟨0⟩, { pool with top := pool.top - 1 })

/-- nvme_request_free: stack[top++] = cid.  (The debug-build assert on
    top < LEN is disabled in release builds.) -/
def nvme_request_free (pool : nvme_request_pool) (cid : Nat) : nvme_request_pool :=
  { pool with stack := pool.stack.set pool.top cid, top := pool.top + 1 }

/-- Iterate nvme_request_alloc n times, collecting the cids of the returned
    requests; stops early if an allocation fails. -/
def allocCids : Nat → nvme_request_pool → List Nat × nvme_request_pool
  | 0, p => ([], p)
  | n + 1, p =>
    match nvme_request_alloc p with
    | .error _ => ([], p)
    | .ok (r, p') =>
      let rec2 := allocCids n p'
      (r.cid :: rec2.1, rec2.2)

/- ### src/include/upcie/nvme/nvme_command.h -/

/-- struct nvme_completion (16 bytes): cdw0, rsvd, sqhd, sqid, cid, status. -/
structure nvme_completion where
  cdw0 : Nat
  rsvd : Nat
  sqhd : Nat
  sqid : Nat
  cid : Nat
  status : Nat
  deriving Repr, DecidableEq

/- ### src/include/upcie/nvme/nvme_qpair.h -/

/-- struct nvme_qpair after nvme_qpair_init, plus the sizes that were
    dma-allocated and memset to zero for the SQ and the CQ.  sqdb and cqdb
    hold the doorbell addresses (bar0 is an address here, not a pointer);
    sq_addr and cq_addr the addresses the dma allocator returned. -/
structure nvme_qpair where
  sqdb : Nat
  cqdb : Nat
  qid : Nat
  depth : Nat
  tail : Nat
  tail_last_written : Nat
  head : Nat
  phase : Nat
  sq_addr : Nat
  cq_addr : Nat
  sq_nbytes : Nat
  cq_nbytes : Nat
  sq_zeroed : Bool
  cq_zeroed : Bool
  rpool : nvme_request_pool
  deriving Repr, DecidableEq

/-- nvme_qpair_init.  cap is the CAP register value read from bar0; the two
    hostmem_dma_malloc outcomes and the rpool calloc outcome are parameters
    (none / false = failure with errno ENOMEM).  The C computes the doorbell
    offsets in uint32: (2 * qid) << (2 + dstrd) wraps mod 2^32, and the
    fixed allocation size is nbytes = 1024 * 64 for both queues. -/
def nvme_qpair_init (qid depth bar0 cap : Nat) (sqAlloc cqAlloc : Option Nat)
    (rpoolAlloc : Bool) : Except Nat nvme_qpair :=
  let dstrd := nvme_reg_cap_get_dstrd cap
  let nbytes : Nat := 1024 * 64
  match sqAlloc with
  | none => .error ENOMEM
  | some sqa =>
    match cqAlloc with
    | none => .error ENOMEM
    | some cqa =>
      if rpoolAlloc then
        .ok { sqdb := bar0 + 0x1000 + ((2 * qid % 2 ^ 32) <<< (2 + dstrd)) % 2 ^ 32
              cqdb := bar0 + 0x1000 + (((2 * qid + 1) % 2 ^ 32) <<< (2 + dstrd)) % 2 ^ 32
              qid := qid, depth := depth, tail := 0
              tail_last_written := UINT16_MAX, head := 0, phase := 1
              sq_addr := sqa, cq_addr := cqa
              sq_nbytes := nbytes, cq_nbytes := nbytes
              sq_zeroed := true, cq_zeroed := true
              rpool := nvme_request_pool_init }
      else .error ENOMEM

/-- The poll condition of nvme_qpair_reap_cpl:
    (cqe->cid < 0xFFFF) && ((cqe->status & 0x1) == qp->phase). -/
def cqeMatches (phase : Nat) (e : nvme_completion) : Bool :=
  decide (e.cid < 0xFFFF) && decide ((e.status &&& 0x1) = phase)

/-- Outcome of nvme_qpair_reap_cpl: the return value (0 or -EAGAIN), the
    copied-out completion, the queue state after the call, the values written
    to the CQ doorbell via mmio_write32, and the number of usleep(1000)
    calls made. -/
structure ReapResult where
  ret : Int
  cpl : Option nvme_completion
  head : Nat
  phase : Nat
  cqdbWrites : List Nat
  sleeps : Nat
  deriving Repr, DecidableEq

/-- The for-loop of nvme_qpair_reap_cpl.  entryAt i is the value the ith poll
    of CQ[head] observes (the device may publish an entry while the loop
    runs); i is the iteration counter, the second argument the remaining
    iterations.  On a match: copy out, head++, wrap to 0 flipping the phase
    when head reaches depth, write the new head to the CQ doorbell, return 0.
    Otherwise usleep(1000) and retry; when the budget is exhausted return
    -EAGAIN. -/
def nvme_qpair_reap_cpl_loop (depth head phase : Nat) (entryAt : Nat → nvme_completion) :
    Nat → Nat → ReapResult
  | _, 0 => { ret := -(EAGAIN : Int), cpl := none, head := head, phase := phase
              cqdbWrites := [], sleeps := 0 }
  | i, fuel + 1 =>
    let e := entryAt i
    if cqeMatches phase e then
      if head + 1 = depth then
        { ret := 0, cpl := some e, head := 0, phase := phase ^^^ 1
          cqdbWrites := [0], sleeps := 0 }
      else
        { ret := 0, cpl := some e, head := head + 1, phase := phase
          cqdbWrites := [head + 1], sleeps := 0 }
    else
      let r := nvme_qpair_reap_cpl_loop depth head phase entryAt (i + 1) fuel
      { r with sleeps := r.sleeps + 1 }

/-- nvme_qpair_reap_cpl(qp, timeout_us, cpl) on a queue pair with the given
    depth, head and phase. -/
def nvme_qpair_reap_cpl (depth head phase : Nat) (entryAt : Nat → nvme_completion)
    (timeout_us : Nat) : ReapResult :=
  nvme_qpair_reap_cpl_loop depth head phase entryAt 0 timeout_us

/- ### src/include/upcie/nvme/nvme_qid.h -/

def BITS_PER_WORD : Nat := 64

def NVME_QID_MAX : Nat := 0xFFFF

def NVME_QID_BITMAP_WORDS : Nat := NVME_QID_MAX / BITS_PER_WORD

/-- nvme_qid_is_allocated: -EINVAL for qid >= NVME_QID_MAX, otherwise the bit
    (qid_bitmap[qid / 64] >> (qid % 64)) & 1. -/
def nvme_qid_is_allocated (bm : List Nat) (qid : Nat) : Except Nat Nat :=
  if NVME_QID_MAX ≤ qid then .error EINVAL
  else .ok ((bm.getD (qid / BITS_PER_WORD) 0 >>> (qid % BITS_PER_WORD)) &&& 1)

/-- nvme_qid_free: clear the bit with &= ~(1ULL << (qid % 64)); qids at or
    above NVME_QID_MAX leave the bitmap untouched (the C returns -EINVAL). -/
def nvme_qid_free (bm : List Nat) (qid : Nat) : List Nat :=
  if NVME_QID_MAX ≤ qid then bm
  else
    let w := qid / BITS_PER_WORD
    bm.set w (bm.getD w 0 &&& ((2 ^ 64 - 1) ^^^ (1 <<< (qid % BITS_PER_WORD))))

/-- nvme_qid_alloc: set the bit with |= 1ULL << (qid % 64); qids at or above
    NVME_QID_MAX leave the bitmap untouched (the C returns -EINVAL). -/
def nvme_qid_alloc (bm : List Nat) (qid : Nat) : List Nat :=
  if NVME_QID_MAX ≤ qid then bm
  else
    let w := qid / BITS_PER_WORD
    bm.set w (bm.getD w 0 ||| (1 <<< (qid % BITS_PER_WORD)))

/-- nvme_qid_bitmap_init: zero all words, then reserve qid 0 for the admin
    queue. -/
def nvme_qid_bitmap_init : List Nat :=
  nvme_qid_alloc (List.replicate NVME_QID_BITMAP_WORDS 0) 0

/-- The inner loop of nvme_qid_find_free: lowest clear bit (0..63) of a word;
    64 when every tested bit is set. -/
def lowestClearBit (w : Nat) : Nat :=
  ((List.range 64).find? fun bit => w &&& (1 <<< bit) = 0).getD 64

/-- The word scan of nvme_qid_find_free. -/
def findFreeAux : List Nat → Nat → Option Nat
  | [], _ => none
  | w :: ws, idx =>
    if w ≠ 2 ^ 64 - 1 then some (idx * BITS_PER_WORD + lowestClearBit w)
    else findFreeAux ws (idx + 1)

/-- nvme_qid_find_free: first word that is not UINT64_MAX, then its lowest
    clear bit; -ENOMEM when every word is full. -/
def nvme_qid_find_free (bm : List Nat) : Int :=
  match findFreeAux bm 0 with
  | some q => (q : Int)
  | none => -(ENOMEM : Int)

/- ### src/include/upcie/nvme/nvme_controller.h -/

/-- The qid-bitmap effect of nvme_controller_create_io_qpair.  The queue-pair
    structure, DMA memory and the two admin commands are projected away: the
    outcomes of nvme_qpair_init and of the two nvme_qpair_submit_sync calls
    (Create I/O CQ, Create I/O SQ) are parameters.  The control flow is the
    source's: qid = nvme_qid_find_free (rejected when < 1); on
    nvme_qpair_init failure the code calls nvme_qid_free(qids, depth) --
    passing depth, not qid -- and returns; on either admin-command failure it
    returns with the bitmap untouched; on success it returns with the bitmap
    untouched as well (no nvme_qid_alloc call exists in the function). -/
def nvme_controller_create_io_qpair_qids (qids : List Nat) (depth : Nat)
    (init_res cq_res sq_res : Except Int Unit) : Except Int Nat × List Nat :=
  let f := nvme_qid_find_free qids
  if f < 1 then (.error (-(ENOMEM : Int)), qids)
  else
    let qid := f.toNat
    match init_res with
    | .error e => (.error e, nvme_qid_free qids depth)
    | .ok _ =>
      match cq_res with
      | .error e => (.error e, qids)
      | .ok _ =>
        match sq_res with
        | .error e => (.error e, qids)
        | .ok _ => (.ok qid, qids)

/- ### src/include/upcie/hostmem_heap.h -/

/-- sizeof(struct hostmem_heap_block) on the LP64 targets the driver runs on:
    size_t size (8) + int free (4, padded to 8) + pointer next (8) = 24.
    The allocator asserts sizeof(*block) < alignment. -/
def HOSTMEM_HEAP_BLOCK_SIZEOF : Nat := 24

/-- One struct hostmem_heap_block.  addr is the address the header lives at;
    the next pointers are represented by list order. -/
structure hostmem_heap_block where
  addr : Nat
  size : Nat
  free : Bool
  deriving Repr, DecidableEq

/-- struct hostmem_heap together with the parts of struct hostmem_hugepage and
    struct hostmem_config it dereferences: memory.virt (base), memory.size
    (size), memory.phys (phys), config->pagesize, config->hugepgsz, nphys and
    the phys_lut array.  blocks is the freelist chain in traversal order. -/
structure hostmem_heap where
  base : Nat
  size : Nat
  phys : Nat
  pagesize : Nat
  hugepgsz : Nat
  nphys : Nat
  phys_lut : List Nat
  blocks : List hostmem_heap_block
  deriving Repr, DecidableEq

/-- The size alignment at the top of hostmem_heap_block_alloc_aligned:
    size = (size + alignment - 1) & ~(alignment - 1), computed on size_t,
    so the sum wraps mod 2^64 and ~ is XOR with all-ones. -/
def c_size_align (size alignment : Nat) : Nat :=
  ((size + alignment - 1) % 2 ^ 64) &&& ((2 ^ 64 - 1) ^^^ (alignment - 1))

/-- The first-fit scan of hostmem_heap_block_alloc_aligned over the freelist,
    after the size has been aligned.  A free block with
    size >= size + alignment is taken; when the remainder after carving out
    alignment + size bytes exceeds a header, a new free block is spliced in at
    block + alignment + size with that remainder as its size and the taken
    block's size becomes the aligned request; the taken block is marked busy
    and the payload block + alignment is returned. -/
def hostmem_heap_alloc_walk (size alignment : Nat) :
    List hostmem_heap_block → Option (Nat × List hostmem_heap_block)
  | [] => none
  | b :: rest =>
    if b.free && decide (size + alignment ≤ b.size) then
      let remaining := b.size - size - alignment
      if HOSTMEM_HEAP_BLOCK_SIZEOF < remaining then
        some (b.addr + alignment,
          { addr := b.addr, size := size, free := false } ::
          { addr := b.addr + alignment + size, size := remaining, free := true } :: rest)
      else
        some (b.addr + alignment, { b with free := false } :: rest)
    else
      match hostmem_heap_alloc_walk size alignment rest with
      | none => none
      | some (p, rest') => some (p, b :: rest')

/-- hostmem_heap_block_alloc_aligned: align the size, scan first-fit; on no
    fit errno = ENOMEM and NULL. -/
def hostmem_heap_block_alloc_aligned (heap : hostmem_heap) (size alignment : Nat) :
    Except Nat (Nat × hostmem_heap) :=
  match hostmem_heap_alloc_walk (c_size_align size alignment) alignment heap.blocks with
  | some (p, bs) => .ok (p, { heap with blocks := bs })
  | none => .error ENOMEM

/-- hostmem_heap_block_alloc: alignment is the configured pagesize. -/
def hostmem_heap_block_alloc (heap : hostmem_heap) (size : Nat) :
    Except Nat (Nat × hostmem_heap) :=
  hostmem_heap_block_alloc_aligned heap size heap.pagesize

/-- The merge walk of hostmem_heap_block_free: one pass from the head; when a
    block and its successor are both free the successor is absorbed
    (size += alignment + next->size) and the walk stays on the block,
    otherwise it advances. -/
def hostmem_heap_merge_walk (alignment : Nat) :
    List hostmem_heap_block → List hostmem_heap_block
  | [] => []
  | [b] => [b]
  | b :: c :: rest =>
    if b.free && c.free then
      hostmem_heap_merge_walk alignment
        ({ addr := b.addr, size := b.size + (alignment + c.size), free := b.free } :: rest)
    else
      b :: hostmem_heap_merge_walk alignment (c :: rest)
termination_by l => l.length

/-- The first statement of hostmem_heap_block_free: block->free = 1 through
    the header pointer at ptr - alignment; in the list model, the block whose
    addr equals that address is marked free. -/
def markFreeAt (a : Nat) (bs : List hostmem_heap_block) : List hostmem_heap_block :=
  bs.map fun b => if b.addr = a then { b with free := true } else b

/-- hostmem_heap_block_free: freeing NULL is a no-op; otherwise the header at
    ptr - alignment (alignment = config->pagesize) is marked free and the
    merge walk runs once. -/
def hostmem_heap_block_free (heap : hostmem_heap) (ptr : Nat) : hostmem_heap :=
  if ptr = 0 then heap
  else
    { heap with blocks :=
        hostmem_heap_merge_walk heap.pagesize (markFreeAt (ptr - heap.pagesize) heap.blocks) }

/-- hostmem_heap_block_virt_to_phys: NULL and out-of-range virt (and a
    hugepage index beyond the LUT) give -EINVAL; otherwise
    phys_lut[offset / hugepgsz] + offset % hugepgsz. -/
def hostmem_heap_block_virt_to_phys (heap : hostmem_heap) (virt : Nat) : Except Nat Nat :=
  if virt = 0 then .error EINVAL
  else if virt < heap.base || decide (heap.base + heap.size ≤ virt) then .error EINVAL
  else
    let offset := virt - heap.base
    let hpage_idx := offset / heap.hugepgsz
    let in_hpage_offset := offset % heap.hugepgsz
    if heap.nphys ≤ hpage_idx then .error EINVAL
    else .ok (heap.phys_lut.getD hpage_idx 0 + in_hpage_offset)

/-- Sum of the sizes of the free blocks of a freelist. -/
def heapTotalFree (bs : List hostmem_heap_block) : Nat :=
  ((bs.filter fun b => b.free).map fun b => b.size).sum

/-- No two consecutive blocks of the freelist are both free.  This holds for
    every reachable heap: hostmem_heap_init creates a single block, the merge
    walk of hostmem_heap_block_free leaves no adjacent free pair, and the
    alloc split only inserts a free remainder after a block it just marked
    busy and before a block that was not free. -/
def MergedBlocks (bs : List hostmem_heap_block) : Prop :=
  List.Chain' (fun a b => a.free = false ∨ b.free = false) bs

/-- A 4 MiB heap over two 2 MiB hugepages whose physical pages are not
    contiguous (phys_lut[1] is far from phys_lut[0] + hugepgsz), freshly
    initialized: one free block spanning the heap, phys_lut[0] = phys. -/
def ceHeap : hostmem_heap :=
  { base := 4096
    size := 2 ^ 22
    phys := 2 ^ 30
    pagesize := 4096
    hugepgsz := 2 ^ 21
    nphys := 2
    phys_lut := [2 ^ 30, 2 ^ 35]
    blocks := [{ addr := 4096, size := 2 ^ 22, free := true }] }

/-- ceHeap after hostmem_heap_block_alloc of 2 MiB: the head block is carved
    into a busy 2 MiB block and a free remainder. -/
def ceHeapA : hostmem_heap :=
  { ceHeap with blocks :=
      [{ addr := 4096, size := 2 ^ 21, free := false },
       { addr := 4096 + 4096 + 2 ^ 21, size := 2 ^ 21 - 4096, free := true }] }

/-- ceHeap after hostmem_heap_block_alloc of one page. -/
def ceHeapB : hostmem_heap :=
  { ceHeap with blocks :=
      [{ addr := 4096, size := 4096, free := false },
       { addr := 12288, size := 2 ^ 22 - 8192, free := true }] }

/-- A fresh 4 MiB heap whose two hugepages ARE physically contiguous
    (phys_lut[1] = phys + hugepgsz). -/
def ctHeap : hostmem_heap :=
  { base := 4096
    size := 2 ^ 22
    phys := 2 ^ 30
    pagesize := 4096
    hugepgsz := 2 ^ 21
    nphys := 2
    phys_lut := [2 ^ 30, 2 ^ 30 + 2 ^ 21]
    blocks := [{ addr := 4096, size := 2 ^ 22, free := true }] }

/-- ctHeap after hostmem_heap_block_alloc of one page. -/
def ctHeapB : hostmem_heap :=
  { ctHeap with blocks :=
      [{ addr := 4096, size := 4096, free := false },
       { addr := 12288, size := 2 ^ 22 - 8192, free := true }] }

/-- The queue pair produced by nvme_qpair_init with qid 1, depth 8, bar0 0,
    cap 0 and successful allocations at 4096 and 8192. -/
def qpcW : nvme_qpair :=
  { sqdb := 0x1008, cqdb := 0x100C, qid := 1, depth := 8, tail := 0
    tail_last_written := UINT16_MAX, head := 0, phase := 1
    sq_addr := 4096, cq_addr := 8192, sq_nbytes := 65536, cq_nbytes := 65536
    sq_zeroed := true, cq_zeroed := true, rpool := nvme_request_pool_init }

/- ### Theorems.  Claim theorems are marked with their claim id. -/

/-- C10: for every 64-bit value v, offset o and width w with 1 <= w <= 63 and
    o + w <= 64, and every field f < 2^w, bitfield_get recovers f from
    bitfield_set v o w f, and bitfield_set agrees with v on every bit position
    outside the inserted range [o, o + w). -/
theorem bitfield_set_get_roundtrip_frame (v o w f : Nat) (hv : v < 2 ^ 64)
    (hw1 : 1 ≤ w) (hw2 : w ≤ 63) (how : o + w ≤ 64) (hf : f < 2 ^ w) :
    bitfield_get (bitfield_set v o w f) o w = f ∧
    ∀ i, i < o ∨ o + w ≤ i → (bitfield_set v o w f).testBit i = v.testBit i := by
  have h1w : (1 : Nat) <<< w = 2 ^ w := by simp [Nat.shiftLeft_eq]
  constructor
  · apply Nat.eq_of_testBit_eq
    intro i
    simp only [bitfield_get, bitfield_set, h1w, Nat.testBit_land, Nat.testBit_shiftRight,
      Nat.testBit_lor, Nat.testBit_xor, Nat.testBit_shiftLeft, Nat.testBit_two_pow_sub_one,
      ge_iff_le, Nat.add_sub_cancel_left]
    by_cases hiw : i < w
    · have h64 : o + i < 64 := by omega
      simp [hiw, h64, Nat.le_add_right]
    · have hfb : f.testBit i = false :=
        Nat.testBit_lt_two_pow
          (lt_of_lt_of_le hf (Nat.pow_le_pow_right (by norm_num) (by omega)))
      simp [hiw, hfb, Nat.le_add_right]
  · intro i hi
    simp only [bitfield_set, h1w, Nat.testBit_lor, Nat.testBit_land, Nat.testBit_xor,
      Nat.testBit_shiftLeft, Nat.testBit_two_pow_sub_one, ge_iff_le]
    have hmask : (decide (o ≤ i) && decide (i - o < w)) = false := by
      rcases hi with h | h
      · simp [Nat.not_le.mpr h]
      · simp
        omega
    by_cases h64 : i < 64
    · simp [hmask, h64]
    · have hvb : v.testBit i = false :=
        Nat.testBit_lt_two_pow
          (lt_of_lt_of_le hv (Nat.pow_le_pow_right (by norm_num) (by omega)))
      simp [hmask, h64, hvb]

/-- C10 witness: the round trip and the frame at a concrete instance. -/
theorem bitfield_set_get_roundtrip_frame_witness :
    bitfield_get (bitfield_set 0x0123456789ABCDEF 16 4 6) 16 4 = 6 ∧
    (bitfield_set 0x0123456789ABCDEF 16 4 6).testBit 3 =
      (0x0123456789ABCDEF : Nat).testBit 3 :=
  ⟨(bitfield_set_get_roundtrip_frame 0x0123456789ABCDEF 16 4 6 (by norm_num) (by norm_num)
      (by norm_num) (by norm_num) (by norm_num)).1,
   (bitfield_set_get_roundtrip_frame 0x0123456789ABCDEF 16 4 6 (by norm_num) (by norm_num)
      (by norm_num) (by norm_num) (by norm_num)).2 3 (Or.inl (by norm_num))⟩

/-- C4: building CC with set_iosqes 6, set_iocqes 4, set_en 1 yields
    0x00460001 and get_en / get_iocqes read back 1 and 4, but get_iosqes reads
    bits 24-27 (not 16-19, where the setter wrote), so it returns 0, not 6:
    the getter's offset contradicts the setter and the NVMe register layout. -/
theorem nvme_reg_cc_iosqes_readback_bug :
    nvme_reg_cc_set_en (nvme_reg_cc_set_iocqes (nvme_reg_cc_set_iosqes 0 6) 4) 1 =
      0x00460001 ∧
    nvme_reg_cc_get_en 0x00460001 = 1 ∧
    nvme_reg_cc_get_iocqes 0x00460001 = 4 ∧
    nvme_reg_cc_get_iosqes 0x00460001 = 0 ∧
    nvme_reg_cc_get_iosqes 0x00460001 ≠ 6 := by decide

/-- Every nibble below 16 renders as a lowercase hex character. -/
theorem hexChar_lower (n : Nat) (h : n < 16) : isLowerHexChar (hexChar n) = true := by
  interval_cases n <;> decide

/-- All characters emitted by the hex renderer are lowercase hex digits. -/
theorem hexDigitsAux_all_lower (fuel : Nat) : ∀ (n : Nat) (acc : List Char),
    acc.all isLowerHexChar = true → (hexDigitsAux fuel n acc).all isLowerHexChar = true := by
  induction fuel with
  | zero => intro n acc hacc; exact hacc
  | succ f ih =>
    intro n acc hacc
    simp only [hexDigitsAux]
    by_cases h : n < 16
    · simp [h, hexChar_lower _ h, hacc]
    · simp only [h, if_false]
      exact ih _ _ (by simp [hexChar_lower _ (Nat.mod_lt _ (by norm_num)), hacc])

/-- The hex renderer emits at most k digits when n < 16 ^ k, provided the
    fuel is also sufficient. -/
theorem hexDigitsAux_length (fuel : Nat) : ∀ (n k : Nat) (acc : List Char),
    1 ≤ k → n < 16 ^ k → n < 16 ^ fuel →
    (hexDigitsAux fuel n acc).length ≤ k + acc.length := by
  induction fuel with
  | zero => intro n k acc _ _ _; simp [hexDigitsAux]
  | succ f ih =>
    intro n k acc hk hnk hfuel
    simp only [hexDigitsAux]
    by_cases h : n < 16
    · simp [h]
      omega
    · simp only [h, if_false]
      have hk2 : 2 ≤ k := by
        rcases Nat.lt_or_ge k 2 with hlt | hge
        · exfalso
          have : k = 1 := by omega
          subst this
          simp at hnk
          omega
        · exact hge
      have h1 : n / 16 < 16 ^ (k - 1) := by
        apply Nat.div_lt_of_lt_mul
        have : 16 ^ (k - 1) * 16 = 16 ^ k := by
          rw [← Nat.pow_succ]
          congr 1
          omega
        omega
      have h2 : n / 16 < 16 ^ f := by
        apply Nat.div_lt_of_lt_mul
        have : 16 ^ f * 16 = 16 ^ (f + 1) := by rw [← Nat.pow_succ]
        omega
      have := ih (n / 16) (k - 1) (hexChar (n % 16) :: acc) (by omega) h1 h2
      simp at this ⊢
      omega

theorem hexDigits_all_lower (n : Nat) : (hexDigits n).all isLowerHexChar = true :=
  hexDigitsAux_all_lower (n + 1) n [] rfl

theorem hexDigits_length_le (n k : Nat) (hk : 1 ≤ k) (h : n < 16 ^ k) :
    (hexDigits n).length ≤ k := by
  have hf : n < 16 ^ (n + 1) :=
    lt_of_lt_of_le (Nat.lt_pow_self (by norm_num) n)
      (Nat.pow_le_pow_right (by norm_num) (by omega))
  simpa using hexDigitsAux_length (n + 1) n k [] hk h hf

/-- printf %0<w>x prints exactly w characters when the value fits in w hex
    digits. -/
theorem hexPad_length (n w : Nat) (hw : 1 ≤ w) (h : n < 16 ^ w) :
    (hexPad n w).length = w := by
  have := hexDigits_length_le n w hw h
  simp [hexPad]
  omega

theorem hexPad_all_lower (n w : Nat) : (hexPad n w).all isLowerHexChar = true := by
  simp [hexPad, List.all_append, hexDigits_all_lower, List.all_eq_true]
  exact Or.inr (by decide)

theorem lowerHexRun_append (p rest : List Char) (hall : p.all isLowerHexChar = true) :
    lowerHexRun p.length (p ++ rest) = some rest := by
  induction p with
  | nil => simp [lowerHexRun]
  | cons c p ih =>
    simp only [List.all_cons, Bool.and_eq_true] at hall
    simp [lowerHexRun, hall.1, ih hall.2]

/-- C9: for every BDF string accepted by pci_addr_from_text, rendering the
    parsed address with pci_addr_to_text yields the canonical lowercase
    dddd:bb:dd.f form; and the concrete input 0000:05:00.0 parses to the
    packed address 0x0500 (domain 0, bus 5, device 0, function 0) and renders
    back as 0000:05:00.0. -/
theorem pci_addr_roundtrip_canonical (s : String) (a : Nat)
    (h : pci_addr_from_text s = .ok a) :
    isCanonicalBDF (pci_addr_to_text a) = true ∧
    pci_addr_from_text "0000:05:00.0" = .ok 0x0500 ∧
    pci_addr_get_domain 0x0500 = 0x0000 ∧
    pci_addr_get_bus 0x0500 = 0x05 ∧
    pci_addr_get_device 0x0500 = 0x00 ∧
    pci_addr_get_function 0x0500 = 0 ∧
    pci_addr_to_text 0x0500 = "0000:05:00.0" := by
  refine ⟨?_, by decide, by decide, by decide, by decide, by decide, by decide⟩
  clear h
  have hdom : pci_addr_get_domain a < 16 ^ 4 := by
    simp only [pci_addr_get_domain]
    exact lt_of_le_of_lt Nat.and_le_right (by norm_num)
  have hbus : pci_addr_get_bus a < 16 ^ 2 := by
    simp only [pci_addr_get_bus]
    exact lt_of_le_of_lt Nat.and_le_right (by norm_num)
  have hdev : pci_addr_get_device a < 16 ^ 2 := by
    simp only [pci_addr_get_device]
    exact lt_of_le_of_lt Nat.and_le_right (by norm_num)
  have hfn : pci_addr_get_function a < 16 ^ 1 := by
    simp only [pci_addr_get_function]
    exact lt_of_le_of_lt Nat.and_le_right (by norm_num)
  have l4 : ∀ r, lowerHexRun 4 (hexPad (pci_addr_get_domain a) 4 ++ r) = some r := by
    intro r
    have := lowerHexRun_append (hexPad (pci_addr_get_domain a) 4) r (hexPad_all_lower _ _)
    rwa [hexPad_length _ _ (by norm_num) hdom] at this
  have l2b : ∀ r, lowerHexRun 2 (hexPad (pci_addr_get_bus a) 2 ++ r) = some r := by
    intro r
    have := lowerHexRun_append (hexPad (pci_addr_get_bus a) 2) r (hexPad_all_lower _ _)
    rwa [hexPad_length _ _ (by norm_num) hbus] at this
  have l2d : ∀ r, lowerHexRun 2 (hexPad (pci_addr_get_device a) 2 ++ r) = some r := by
    intro r
    have := lowerHexRun_append (hexPad (pci_addr_get_device a) 2) r (hexPad_all_lower _ _)
    rwa [hexPad_length _ _ (by norm_num) hdev] at this
  have l1f : lowerHexRun 1 (hexPad (pci_addr_get_function a) 1) = some [] := by
    have := lowerHexRun_append (hexPad (pci_addr_get_function a) 1) [] (hexPad_all_lower _ _)
    rwa [hexPad_length _ _ (by norm_num) hfn, List.append_nil] at this
  have e : (pci_addr_to_text a).toList =
      hexPad (pci_addr_get_domain a) 4 ++ ':' :: (hexPad (pci_addr_get_bus a) 2 ++
        ':' :: (hexPad (pci_addr_get_device a) 2 ++
          '.' :: hexPad (pci_addr_get_function a) 1)) := rfl
  simp only [isCanonicalBDF]
  rw [e]
  simp [l4, l2b, l2d, l1f, expectChar]

/-- C9 witness: the round trip at the concrete input 0000:05:00.0. -/
theorem pci_addr_roundtrip_canonical_witness :
    isCanonicalBDF (pci_addr_to_text 0x0500) = true ∧
    pci_addr_to_text 0x0500 = "0000:05:00.0" :=
  ⟨(pci_addr_roundtrip_canonical "0000:05:00.0" 0x0500 (by decide)).1,
   (pci_addr_roundtrip_canonical "0000:05:00.0" 0x0500 (by decide)).2.2.2.2.2.2⟩

/-- Initial cid stack: array slot i holds LEN - 1 - i. -/
theorem pool_init_stack_getD (i : Nat) (h : i < NVME_REQUEST_POOL_LEN) :
    nvme_request_pool_init.stack.getD i 0 = NVME_REQUEST_POOL_LEN - 1 - i := by
  have hlen : i < nvme_request_pool_init.stack.length := by
    simpa [nvme_request_pool_init] using h
  rw [List.getD_eq_getElem _ _ hlen]
  simp [nvme_request_pool_init]

/-- Initial request array: slot i carries cid i. -/
theorem pool_init_reqs_getD (i : Nat) (h : i < NVME_REQUEST_POOL_LEN) :
    nvme_request_pool_init.reqs.getD i ⟨0⟩ = ⟨i⟩ := by
  have hlen : i < nvme_request_pool_init.reqs.length := by
    simpa [nvme_request_pool_init] using h
  rw [List.getD_eq_getElem _ _ hlen]
  simp [nvme_request_pool_init]

set_option maxRecDepth 4096 in
/-- n allocations from the freshly initialized arrays at stack level t pop
    the cids LEN - t, LEN - t + 1, ... in order. -/
theorem allocCids_init_chunk : ∀ (n t : Nat), t ≤ NVME_REQUEST_POOL_LEN → n ≤ t →
    allocCids n { reqs := nvme_request_pool_init.reqs,
                  stack := nvme_request_pool_init.stack, top := t } =
    (List.range' (NVME_REQUEST_POOL_LEN - t) n,
     { reqs := nvme_request_pool_init.reqs,
       stack := nvme_request_pool_init.stack, top := t - n }) := by
  intro n
  induction n with
  | zero => intro t ht hn; simp [allocCids]
  | succ n ih =>
    intro t ht hn
    have ht1 : t ≠ 0 := by omega
    have hcid : nvme_request_pool_init.stack.getD (t - 1) 0 = NVME_REQUEST_POOL_LEN - t := by
      rw [pool_init_stack_getD (t - 1) (by omega)]
      omega
    have hreq : nvme_request_pool_init.reqs.getD (NVME_REQUEST_POOL_LEN - t) ⟨0⟩ =
        (⟨NVME_REQUEST_POOL_LEN - t⟩ : nvme_request) :=
      pool_init_reqs_getD _ (by omega)
    have halloc : nvme_request_alloc
        { reqs := nvme_request_pool_init.reqs
          stack := nvme_request_pool_init.stack
          top := t } =
        .ok (⟨NVME_REQUEST_POOL_LEN - t⟩,
        { reqs := nvme_request_pool_init.reqs
          stack := nvme_request_pool_init.stack
          top := t - 1 }) := by
      simp only [nvme_request_alloc, ht1, if_false]
      rw [hcid, hreq]
    simp only [allocCids, halloc]
    have := ih (t - 1) (by omega) (by omega)
    rw [this]
    have h1 : NVME_REQUEST_POOL_LEN - (t - 1) = NVME_REQUEST_POOL_LEN - t + 1 := by omega
    have h2 : t - 1 - n = t - (n + 1) := by omega
    simp [List.range'_succ, h1, h2]

set_option maxRecDepth 4096 in
/-- C6: 1024 consecutive allocations from a fresh pool succeed and return the
    pairwise distinct cids 0..1023; the 1025th returns the out-of-memory
    error; and freeing a cid into any pool with room makes the next
    allocation return exactly that cid (LIFO reuse). -/
theorem nvme_request_pool_alloc_free_spec :
    (allocCids NVME_REQUEST_POOL_LEN nvme_request_pool_init).1 =
      List.range NVME_REQUEST_POOL_LEN ∧
    (allocCids NVME_REQUEST_POOL_LEN nvme_request_pool_init).1.Nodup ∧
    nvme_request_alloc (allocCids NVME_REQUEST_POOL_LEN nvme_request_pool_init).2 =
      .error ENOMEM ∧
    (∀ (pool : nvme_request_pool) (c : Nat),
      pool.top < NVME_REQUEST_POOL_LEN →
      pool.stack.length = NVME_REQUEST_POOL_LEN →
      c < NVME_REQUEST_POOL_LEN →
      (∀ i, i < NVME_REQUEST_POOL_LEN → (pool.reqs.getD i ⟨0⟩).cid = i) →
      nvme_request_alloc (nvme_request_free pool c) =
        .ok (⟨c⟩, { pool with stack := pool.stack.set pool.top c })) := by
  have hchunk := allocCids_init_chunk NVME_REQUEST_POOL_LEN NVME_REQUEST_POOL_LEN
    (le_refl _) (le_refl _)
  have hinit : nvme_request_pool_init =
      { reqs := nvme_request_pool_init.reqs
        stack := nvme_request_pool_init.stack
        top := NVME_REQUEST_POOL_LEN } := rfl
  refine ⟨?_, ?_, ?_, ?_⟩
  · rw [hinit, hchunk]
    simp [List.range_eq_range']
  · rw [hinit, hchunk]
    simp only []
    rw [show NVME_REQUEST_POOL_LEN - NVME_REQUEST_POOL_LEN = 0 from rfl,
      ← List.range_eq_range']
    exact List.nodup_range _
  · rw [hinit, hchunk]
    simp [nvme_request_alloc]
  · intro pool c htop hlen hc hreqs
    have hne : pool.top + 1 ≠ 0 := by omega
    have hgd : (pool.stack.set pool.top c).getD (pool.top + 1 - 1) 0 = c := by
      have hl : pool.top < (pool.stack.set pool.top c).length := by
        rw [List.length_set]
        omega
      rw [show pool.top + 1 - 1 = pool.top from rfl, List.getD_eq_getElem _ _ hl,
        List.getElem_set_self]
    have hreq : pool.reqs.getD c ⟨0⟩ = (⟨c⟩ : nvme_request) := by
      have := hreqs c hc
      cases hx : pool.reqs.getD c ⟨0⟩
      rw [hx] at this
      simpa using this
    simp only [nvme_request_free, nvme_request_alloc, hne, if_false, hgd, hreq]
    simp

set_option maxRecDepth 8192 in
/-- C6 witness: the exhaustion facts, and LIFO reuse of cid 7 on a pool at
    stack level 5. -/
theorem nvme_request_pool_alloc_free_spec_witness :
    (allocCids NVME_REQUEST_POOL_LEN nvme_request_pool_init).1 =
      List.range NVME_REQUEST_POOL_LEN ∧
    nvme_request_alloc (allocCids NVME_REQUEST_POOL_LEN nvme_request_pool_init).2 =
      .error ENOMEM ∧
    nvme_request_alloc (nvme_request_free
      { reqs := nvme_request_pool_init.reqs, stack := nvme_request_pool_init.stack, top := 5 }
      7) =
      .ok (⟨7⟩,
        { reqs := nvme_request_pool_init.reqs, stack := nvme_request_pool_init.stack.set 5 7,
          top := 5 }) :=
  ⟨nvme_request_pool_alloc_free_spec.1,
   nvme_request_pool_alloc_free_spec.2.2.1,
   nvme_request_pool_alloc_free_spec.2.2.2
     { reqs := nvme_request_pool_init.reqs, stack := nvme_request_pool_init.stack, top := 5 }
     7 (by decide)
     (by simp [nvme_request_pool_init])
     (by decide)
     (fun i hi => by
       show (nvme_request_pool_init.reqs.getD i ⟨0⟩).cid = i
       rw [pool_init_reqs_getD i hi])⟩

/-- When no poll matches, the loop sleeps once per iteration and returns
    -EAGAIN with the queue state untouched and no doorbell write. -/
theorem reap_loop_timeout (depth head phase : Nat) (entryAt : Nat → nvme_completion) :
    ∀ (fuel i0 : Nat), (∀ j, j < fuel → cqeMatches phase (entryAt (i0 + j)) = false) →
    nvme_qpair_reap_cpl_loop depth head phase entryAt i0 fuel =
      { ret := -(EAGAIN : Int), cpl := none, head := head, phase := phase
        cqdbWrites := [], sleeps := fuel } := by
  intro fuel
  induction fuel with
  | zero => intro i0 _; rfl
  | succ f ih =>
    intro i0 hno
    have h0 : cqeMatches phase (entryAt i0) = false := by
      simpa using hno 0 (by omega)
    have hrest : ∀ j, j < f → cqeMatches phase (entryAt (i0 + 1 + j)) = false := by
      intro j hj
      have e : i0 + 1 + j = i0 + (j + 1) := by omega
      rw [e]
      exact hno (j + 1) (by omega)
    simp only [nvme_qpair_reap_cpl_loop, h0, Bool.false_eq_true, if_false, ih (i0 + 1) hrest]

/-- The first matching poll is copied out; head advances, wraps and flips the
    phase at depth, and the new head is written to the CQ doorbell. -/
theorem reap_loop_match (depth head phase : Nat) (entryAt : Nat → nvme_completion) :
    ∀ (i fuel i0 : Nat), i < fuel → cqeMatches phase (entryAt (i0 + i)) = true →
    (∀ j, j < i → cqeMatches phase (entryAt (i0 + j)) = false) →
    nvme_qpair_reap_cpl_loop depth head phase entryAt i0 fuel =
      (if head + 1 = depth then
        { ret := 0, cpl := some (entryAt (i0 + i)), head := 0, phase := phase ^^^ 1
          cqdbWrites := [0], sleeps := i }
      else
        { ret := 0, cpl := some (entryAt (i0 + i)), head := head + 1, phase := phase
          cqdbWrites := [head + 1], sleeps := i }) := by
  intro i
  induction i with
  | zero =>
    intro fuel i0 hf hm _
    obtain ⟨f, rfl⟩ : ∃ f, fuel = f + 1 := ⟨fuel - 1, by omega⟩
    simp only [Nat.add_zero] at hm
    simp only [nvme_qpair_reap_cpl_loop, hm, if_true]
    by_cases hd : head + 1 = depth <;> simp [hd]
  | succ i ih =>
    intro fuel i0 hf hm hpre
    obtain ⟨f, rfl⟩ : ∃ f, fuel = f + 1 := ⟨fuel - 1, by omega⟩
    have h0 : cqeMatches phase (entryAt i0) = false := by
      simpa using hpre 0 (by omega)
    have hm' : cqeMatches phase (entryAt (i0 + 1 + i)) = true := by
      have e : i0 + 1 + i = i0 + (i + 1) := by omega
      rw [e]
      exact hm
    have hpre' : ∀ j, j < i → cqeMatches phase (entryAt (i0 + 1 + j)) = false := by
      intro j hj
      have e : i0 + 1 + j = i0 + (j + 1) := by omega
      rw [e]
      exact hpre (j + 1) (by omega)
    have hrec := ih f (i0 + 1) (by omega) hm' hpre'
    simp only [nvme_qpair_reap_cpl_loop, h0, Bool.false_eq_true, if_false, hrec]
    have e : i0 + 1 + i = i0 + (i + 1) := by omega
    by_cases hd : head + 1 = depth <;> simp [hd, e]

/-- C2: nvme_qpair_reap_cpl polls CQ[head] for an entry whose phase bit
    equals the queue phase and whose cid is below 0xFFFF.  With
    timeout_us = 0 it returns -EAGAIN without sleeping; when no poll matches
    within the budget it returns -EAGAIN after timeout_us sleeps; on the
    first match it copies the entry out, advances head by one, wraps to 0 and
    flips the 1-bit phase exactly when head was depth - 1, writes the new
    head to the CQ doorbell, and returns 0. -/
theorem nvme_qpair_reap_cpl_spec (depth head phase t : Nat)
    (entryAt : Nat → nvme_completion) (hhd : head < depth) :
    (nvme_qpair_reap_cpl depth head phase entryAt 0 =
      { ret := -(EAGAIN : Int), cpl := none, head := head, phase := phase
        cqdbWrites := [], sleeps := 0 }) ∧
    ((∀ j, j < t → cqeMatches phase (entryAt j) = false) →
      nvme_qpair_reap_cpl depth head phase entryAt t =
      { ret := -(EAGAIN : Int), cpl := none, head := head, phase := phase
        cqdbWrites := [], sleeps := t }) ∧
    (∀ i, i < t → cqeMatches phase (entryAt i) = true →
      (∀ j, j < i → cqeMatches phase (entryAt j) = false) →
      nvme_qpair_reap_cpl depth head phase entryAt t =
      { ret := 0, cpl := some (entryAt i)
        head := if head = depth - 1 then 0 else head + 1
        phase := if head = depth - 1 then phase ^^^ 1 else phase
        cqdbWrites := [if head = depth - 1 then 0 else head + 1], sleeps := i }) := by
  have hiff : (head + 1 = depth) ↔ (head = depth - 1) := by omega
  refine ⟨rfl, ?_, ?_⟩
  · intro hno
    exact reap_loop_timeout depth head phase entryAt t 0 (by simpa using hno)
  · intro i hit hm hpre
    have := reap_loop_match depth head phase entryAt i t 0 hit (by simpa using hm)
      (by simpa using hpre)
    rw [nvme_qpair_reap_cpl, this]
    by_cases hd : head = depth - 1
    · rw [if_pos (hiff.mpr hd)]
      simp [hd]
    · rw [if_neg (fun hc => hd (hiff.mp hc))]
      simp [hd]

/-- C2 witness: on a depth-2 queue with head 1 and phase 1, zero timeout and
    an exhausted timeout return -EAGAIN (0 resp. 3 sleeps); a matching entry
    with cid 7 and phase bit 1 is reaped on the first poll, wrapping head to
    0, flipping the phase to 0, and writing 0 to the CQ doorbell. -/
theorem nvme_qpair_reap_cpl_spec_witness :
    (nvme_qpair_reap_cpl 2 1 1 (fun _ => ⟨0, 0, 0, 0, 0xFFFF, 1⟩) 0 =
      { ret := -(EAGAIN : Int), cpl := none, head := 1, phase := 1
        cqdbWrites := [], sleeps := 0 }) ∧
    (nvme_qpair_reap_cpl 2 1 1 (fun _ => ⟨0, 0, 0, 0, 0xFFFF, 1⟩) 3 =
      { ret := -(EAGAIN : Int), cpl := none, head := 1, phase := 1
        cqdbWrites := [], sleeps := 3 }) ∧
    (nvme_qpair_reap_cpl 2 1 1 (fun _ => ⟨0, 0, 0, 0, 7, 1⟩) 3 =
      { ret := 0, cpl := some ⟨0, 0, 0, 0, 7, 1⟩, head := 0, phase := 0
        cqdbWrites := [0], sleeps := 0 }) := by
  refine ⟨?_, ?_, ?_⟩
  · exact (nvme_qpair_reap_cpl_spec 2 1 1 0 (fun _ => ⟨0, 0, 0, 0, 0xFFFF, 1⟩)
      (by decide)).1
  · exact (nvme_qpair_reap_cpl_spec 2 1 1 3 (fun _ => ⟨0, 0, 0, 0, 0xFFFF, 1⟩)
      (by decide)).2.1 (by decide)
  · exact (nvme_qpair_reap_cpl_spec 2 1 1 3 (fun _ => ⟨0, 0, 0, 0, 7, 1⟩)
      (by decide)).2.2 0 (by decide) (by decide) (by decide)

/-- C5 counterexample: at depth 8 the CQ allocation is the fixed
    nbytes = 1024 * 64 = 65536 bytes, not depth * 16 = 128 bytes: the
    allocation sizes do not scale with depth. -/
theorem nvme_qpair_init_depth_size_counterexample :
    (nvme_qpair_init 1 8 0 0 (some 4096) (some 8192) true).map (fun qp => qp.cq_nbytes) =
      .ok 65536 ∧ (65536 : Nat) ≠ 8 * 16 ∧ (65536 : Nat) ≠ 8 * 64 := by
  refine ⟨rfl, by decide, by decide⟩

/-- C5 (amended): on success nvme_qpair_init sets the SQ doorbell to
    bar0 + 0x1000 + (2 qid << (2 + CAP.DSTRD)) and the CQ doorbell to
    bar0 + 0x1000 + ((2 qid + 1) << (2 + CAP.DSTRD)), allocates and zeroes
    fixed 65536-byte (1024 * 64) SQ and CQ buffers independent of depth,
    initializes a request pool, and sets tail = 0, head = 0,
    tail_last_written = UINT16_MAX and phase = 1. -/
theorem nvme_qpair_init_spec (qid depth bar0 cap sqa cqa : Nat) (qp : nvme_qpair)
    (hw : (2 * qid + 1) <<< (2 + nvme_reg_cap_get_dstrd cap) < 2 ^ 32)
    (h : nvme_qpair_init qid depth bar0 cap (some sqa) (some cqa) true = .ok qp) :
    qp.sqdb = bar0 + 0x1000 + (2 * qid) <<< (2 + nvme_reg_cap_get_dstrd cap) ∧
    qp.cqdb = bar0 + 0x1000 + (2 * qid + 1) <<< (2 + nvme_reg_cap_get_dstrd cap) ∧
    qp.sq_nbytes = 1024 * 64 ∧ qp.cq_nbytes = 1024 * 64 ∧
    qp.sq_zeroed = true ∧ qp.cq_zeroed = true ∧
    qp.rpool = nvme_request_pool_init ∧
    qp.qid = qid ∧ qp.depth = depth ∧
    qp.tail = 0 ∧ qp.head = 0 ∧ qp.tail_last_written = UINT16_MAX ∧ qp.phase = 1 := by
  have hpos : 0 < 2 ^ (2 + nvme_reg_cap_get_dstrd cap) := Nat.pos_pow_of_pos _ (by norm_num)
  rw [Nat.shiftLeft_eq] at hw
  have hq1 : 2 * qid + 1 ≤ (2 * qid + 1) * 2 ^ (2 + nvme_reg_cap_get_dstrd cap) :=
    Nat.le_mul_of_pos_right _ hpos
  have hqlt : 2 * qid % 2 ^ 32 = 2 * qid := Nat.mod_eq_of_lt (by omega)
  have hq1lt : (2 * qid + 1) % 2 ^ 32 = 2 * qid + 1 := Nat.mod_eq_of_lt (by omega)
  have hsq : (2 * qid) * 2 ^ (2 + nvme_reg_cap_get_dstrd cap) < 2 ^ 32 := by
    have : (2 * qid) * 2 ^ (2 + nvme_reg_cap_get_dstrd cap) ≤
        (2 * qid + 1) * 2 ^ (2 + nvme_reg_cap_get_dstrd cap) :=
      Nat.mul_le_mul_right _ (by omega)
    omega
  simp only [nvme_qpair_init, if_true] at h
  injection h with h'
  subst h'
  refine ⟨?_, ?_, rfl, rfl, rfl, rfl, rfl, rfl, rfl, rfl, rfl, rfl, rfl⟩
  · simp only [Nat.shiftLeft_eq, hqlt]
    rw [Nat.mod_eq_of_lt hsq]
  · simp only [Nat.shiftLeft_eq, hq1lt]
    rw [Nat.mod_eq_of_lt hw]

/-- C5 witness: the amended description at qid 1, depth 8, bar0 0, CAP 0. -/
theorem nvme_qpair_init_spec_witness :
    qpcW.sqdb = 0 + 0x1000 + (2 * 1) <<< (2 + nvme_reg_cap_get_dstrd 0) ∧
    qpcW.cq_nbytes = 1024 * 64 ∧
    qpcW.tail_last_written = UINT16_MAX ∧
    qpcW.phase = 1 := by
  obtain ⟨h1, _, _, h4, _, _, _, _, _, _, _, h12, h13⟩ :=
    nvme_qpair_init_spec 1 8 0 0 4096 8192 qpcW (by decide) rfl
  exact ⟨h1, h4, h12, h13⟩

set_option maxRecDepth 8192 in
/-- C3: the qid-bitmap handling of nvme_controller_create_io_qpair evaluated
    on a fresh bitmap (only bit 0 set).  A fully successful call returns
    qid 1 yet leaves bit 1 clear -- the function never calls nvme_qid_alloc,
    so the id it hands out is not marked allocated (a second call would get
    qid 1 again); and when nvme_qpair_init fails the code frees bit depth
    instead of bit qid: with depth = 0 this clears the reserved admin bit 0,
    changing the bitmap relative to entry instead of releasing qid 1. -/
theorem nvme_controller_create_io_qpair_qids_bug :
    (nvme_controller_create_io_qpair_qids nvme_qid_bitmap_init 64
      (.ok ()) (.ok ()) (.ok ())) = (.ok 1, nvme_qid_bitmap_init) ∧
    nvme_qid_is_allocated nvme_qid_bitmap_init 1 = .ok 0 ∧
    (nvme_controller_create_io_qpair_qids nvme_qid_bitmap_init 0
      (.error (-(ENOMEM : Int))) (.ok ()) (.ok ())).2 =
      nvme_qid_free nvme_qid_bitmap_init 0 ∧
    nvme_qid_is_allocated (nvme_qid_free nvme_qid_bitmap_init 0) 0 = .ok 0 ∧
    nvme_qid_is_allocated nvme_qid_bitmap_init 0 = .ok 1 := by
  refine ⟨by decide, by decide, by decide, by decide, by decide⟩
theorem merge_walk_merged (al : Nat) : ∀ (bs : List hostmem_heap_block), MergedBlocks bs →
    hostmem_heap_merge_walk al bs = bs := by
  intro bs
  induction bs with
  | nil => intro _; simp [hostmem_heap_merge_walk]
  | cons b rest ih =>
    intro hm
    cases rest with
    | nil => simp [hostmem_heap_merge_walk]
    | cons c rest2 =>
      have hnb : b.free = false ∨ c.free = false := (List.chain'_cons.mp hm).1
      have hm2 : MergedBlocks (c :: rest2) := (List.chain'_cons.mp hm).2
      have hcond : (b.free && c.free) = false := by
        rcases hnb with h | h <;> simp [h]
      simp only [hostmem_heap_merge_walk, hcond, Bool.false_eq_true, if_false]
      rw [ih hm2]

theorem merge_walk_cons (al : Nat) (b : hostmem_heap_block) (X : List hostmem_heap_block)
    (h : ∀ x, X.head? = some x → (b.free && x.free) = false) :
    hostmem_heap_merge_walk al (b :: X) = b :: hostmem_heap_merge_walk al X := by
  cases X with
  | nil => simp [hostmem_heap_merge_walk]
  | cons x xs =>
    have := h x rfl
    simp only [hostmem_heap_merge_walk, this, Bool.false_eq_true, if_false]

theorem markFreeAt_not_mem (a : Nat) : ∀ (bs : List hostmem_heap_block),
    (∀ b ∈ bs, b.addr ≠ a) → markFreeAt a bs = bs := by
  intro bs
  induction bs with
  | nil => intro _; rfl
  | cons b rest ih =>
    intro hne
    have h1 : b.addr ≠ a := hne b (List.mem_cons_self _ _)
    simp only [markFreeAt, List.map_cons, if_neg h1]
    have := ih fun x hx => hne x (List.mem_cons_of_mem _ hx)
    simp only [markFreeAt] at this
    rw [this]

theorem alloc_walk_mem (s al : Nat) : ∀ (bs : List hostmem_heap_block) (p : Nat)
    (bs' : List hostmem_heap_block), hostmem_heap_alloc_walk s al bs = some (p, bs') →
    ∃ m, m ∈ bs ∧ m.free = true ∧ p = m.addr + al ∧ s + al ≤ m.size := by
  intro bs
  induction bs with
  | nil => intro p bs' h; simp [hostmem_heap_alloc_walk] at h
  | cons b rest ih =>
    intro p bs' h
    by_cases hcond : (b.free && decide (s + al ≤ b.size)) = true
    · rw [hostmem_heap_alloc_walk, if_pos hcond] at h
      have hbf : b.free = true := Bool.and_elim_left hcond
      have hsz : s + al ≤ b.size := by simpa using Bool.and_elim_right hcond
      by_cases hsplit : HOSTMEM_HEAP_BLOCK_SIZEOF < b.size - s - al
      · rw [if_pos hsplit] at h
        injection h with h'
        exact ⟨b, List.mem_cons_self _ _, hbf,
          by rw [← (Prod.mk.injEq _ _ _ _).mp h' |>.1], hsz⟩
      · rw [if_neg hsplit] at h
        injection h with h'
        exact ⟨b, List.mem_cons_self _ _, hbf,
          by rw [← (Prod.mk.injEq _ _ _ _).mp h' |>.1], hsz⟩
    · rw [hostmem_heap_alloc_walk, if_neg hcond] at h
      cases hw : hostmem_heap_alloc_walk s al rest with
      | none => rw [hw] at h; exact absurd h (by simp)
      | some pr =>
        rw [hw] at h
        obtain ⟨q, rest'⟩ := pr
        injection h with h'
        obtain ⟨hq, _⟩ := (Prod.mk.injEq _ _ _ _).mp h'
        obtain ⟨m, hmem, hmf, hp, hsz⟩ := ih q rest' hw
        exact ⟨m, List.mem_cons_of_mem _ hmem, hmf, by rw [← hq, hp], hsz⟩

theorem alloc_walk_head (s al : Nat) (b : hostmem_heap_block)
    (rest : List hostmem_heap_block) (p : Nat) (bs' : List hostmem_heap_block)
    (h : hostmem_heap_alloc_walk s al (b :: rest) = some (p, bs')) :
    ∃ b' rest'', bs' = b' :: rest'' ∧ b'.addr = b.addr ∧
      (b' = b ∨ (b.free = true ∧ b'.free = false)) := by
  by_cases hcond : (b.free && decide (s + al ≤ b.size)) = true
  · rw [hostmem_heap_alloc_walk, if_pos hcond] at h
    have hbf : b.free = true := Bool.and_elim_left hcond
    by_cases hsplit : HOSTMEM_HEAP_BLOCK_SIZEOF < b.size - s - al
    · rw [if_pos hsplit] at h
      injection h with h'
      obtain ⟨_, hbs⟩ := (Prod.mk.injEq _ _ _ _).mp h'
      exact ⟨_, _, hbs.symm, rfl, Or.inr ⟨hbf, rfl⟩⟩
    · rw [if_neg hsplit] at h
      injection h with h'
      obtain ⟨_, hbs⟩ := (Prod.mk.injEq _ _ _ _).mp h'
      exact ⟨_, _, hbs.symm, rfl, Or.inr ⟨hbf, rfl⟩⟩
  · rw [hostmem_heap_alloc_walk, if_neg hcond] at h
    cases hw : hostmem_heap_alloc_walk s al rest with
    | none => rw [hw] at h; exact absurd h (by simp)
    | some pr =>
      rw [hw] at h
      obtain ⟨q, rest'⟩ := pr
      injection h with h'
      obtain ⟨_, hbs⟩ := (Prod.mk.injEq _ _ _ _).mp h'
      exact ⟨_, _, hbs.symm, rfl, Or.inl rfl⟩

theorem alloc_free_restores (s al : Nat) (hal : 0 < al) :
    ∀ (bs : List hostmem_heap_block) (p : Nat) (bs' : List hostmem_heap_block),
    MergedBlocks bs → (bs.map fun b => b.addr).Nodup →
    hostmem_heap_alloc_walk s al bs = some (p, bs') →
    hostmem_heap_merge_walk al (markFreeAt (p - al) bs') = bs := by
  intro bs
  induction bs with
  | nil => intro p bs' _ _ h; simp [hostmem_heap_alloc_walk] at h
  | cons b rest ih =>
    intro p bs' hm hnd h
    have hmrest : MergedBlocks rest := hm.tail
    have hnd' : b.addr ∉ rest.map fun x => x.addr := by
      simp only [List.map_cons, List.nodup_cons] at hnd
      exact hnd.1
    have hndrest : (rest.map fun x => x.addr).Nodup := by
      simp only [List.map_cons, List.nodup_cons] at hnd
      exact hnd.2
    obtain ⟨baddr, bsize, bfree⟩ := b
    by_cases hcond :
        (({ addr := baddr, size := bsize, free := bfree } : hostmem_heap_block).free &&
          decide (s + al ≤
            ({ addr := baddr, size := bsize, free := bfree } : hostmem_heap_block).size)) = true
    · have hbf : bfree = true := Bool.and_elim_left hcond
      subst hbf
      have hsz : s + al ≤ bsize := by
        have := Bool.and_elim_right hcond
        simpa using this
      rw [hostmem_heap_alloc_walk, if_pos hcond] at h
      have hrest_eq : markFreeAt baddr rest = rest :=
        markFreeAt_not_mem _ rest fun x hx hxa => by
          exact hnd' (hxa ▸ List.mem_map_of_mem (fun y => y.addr) hx)
      by_cases hsplit : HOSTMEM_HEAP_BLOCK_SIZEOF < bsize - s - al
      · rw [if_pos hsplit] at h
        simp only at h
        injection h with h'
        obtain ⟨hp, hbs⟩ := (Prod.mk.injEq _ _ _ _).mp h'
        rw [← hbs, ← hp]
        have hpa : baddr + al - al = baddr := by omega
        have hRne : baddr + al + s ≠ baddr := by omega
        have hrest_eq2 : List.map (fun b =>
            if b.addr = baddr then { addr := b.addr, size := b.size, free := true } else b)
            rest = rest := by
          simpa [markFreeAt] using hrest_eq
        have hmarked : markFreeAt baddr
            ({ addr := baddr, size := s, free := false } ::
             { addr := baddr + al + s, size := bsize - s - al, free := true } :: rest) =
            { addr := baddr, size := s, free := true } ::
            { addr := baddr + al + s, size := bsize - s - al, free := true } :: rest := by
          simp [markFreeAt, hRne, hrest_eq2]
        rw [hpa, hmarked]
        rw [hostmem_heap_merge_walk]
        simp only [Bool.and_self, if_pos]
        have hsum : s + (al + (bsize - s - al)) = bsize := by omega
        simp only [hsum]
        exact merge_walk_merged al _ hm
      · rw [if_neg hsplit] at h
        simp only at h
        injection h with h'
        obtain ⟨hp, hbs⟩ := (Prod.mk.injEq _ _ _ _).mp h'
        rw [← hbs, ← hp]
        have hpa : baddr + al - al = baddr := by omega
        have hrest_eq2 : List.map (fun b =>
            if b.addr = baddr then { addr := b.addr, size := b.size, free := true } else b)
            rest = rest := by
          simpa [markFreeAt] using hrest_eq
        have hmarked : markFreeAt baddr
            ({ addr := baddr, size := bsize, free := false } :: rest) =
            { addr := baddr, size := bsize, free := true } :: rest := by
          simp [markFreeAt, hrest_eq2]
        rw [hpa, hmarked]
        exact merge_walk_merged al _ hm
    · rw [hostmem_heap_alloc_walk, if_neg hcond] at h
      cases hw : hostmem_heap_alloc_walk s al rest with
      | none => rw [hw] at h; exact absurd h (by simp)
      | some pr =>
        obtain ⟨q, rest'⟩ := pr
        rw [hw] at h
        injection h with h'
        obtain ⟨hq, hbs⟩ := (Prod.mk.injEq _ _ _ _).mp h'
        rw [← hbs, ← hq]
        obtain ⟨m, hmem, hmf, hp, -⟩ := alloc_walk_mem s al rest q rest' hw
        have hpal : q - al = m.addr := by omega
        have hbm : baddr ≠ m.addr := by
          intro he
          apply hnd'
          show baddr ∈ _
          rw [he]
          exact List.mem_map_of_mem (fun y => y.addr) hmem
        have hmark : markFreeAt (q - al)
            ({ addr := baddr, size := bsize, free := bfree } :: rest') =
            { addr := baddr, size := bsize, free := bfree } :: markFreeAt (q - al) rest' := by
          simp only [markFreeAt, List.map_cons]
          rw [if_neg (by rw [hpal]; exact hbm)]
        rw [hmark]
        have hdec : ∀ x, (markFreeAt (q - al) rest').head? = some x →
            (({ addr := baddr, size := bsize, free := bfree } : hostmem_heap_block).free &&
              x.free) = false := by
          by_cases hbf : bfree = true
          · cases rest with
            | nil => simp [hostmem_heap_alloc_walk] at hw
            | cons c rest2 =>
              have hcfree : c.free = false := by
                rcases (List.chain'_cons.mp hm).1 with h1 | h1
                · simp only at h1
                  rw [hbf] at h1
                  exact absurd h1 (by simp)
                · exact h1
              obtain ⟨b', rest'', hre, haddr, hor⟩ := alloc_walk_head s al c rest2 q rest' hw
              have hb'c : b' = c := by
                rcases hor with h1 | h1
                · exact h1
                · rw [hcfree] at h1
                  exact absurd h1.1 (by simp)
              have hmc : m ≠ c := fun he => by
                rw [he, hcfree] at hmf
                exact absurd hmf (by simp)
              have hm2 : m ∈ rest2 := by
                rcases List.mem_cons.mp hmem with h1 | h1
                · exact absurd h1 hmc
                · exact h1
              have hcm : c.addr ≠ m.addr := by
                intro he
                have h1 : c.addr ∉ rest2.map fun x => x.addr := by
                  simp only [List.map_cons, List.nodup_cons] at hndrest
                  exact hndrest.1
                exact h1 (he ▸ List.mem_map_of_mem (fun y => y.addr) hm2)
              have hcqal : ¬(c.addr = q - al) := by rw [hpal]; exact hcm
              intro x hx
              rw [hre, hb'c] at hx
              simp only [markFreeAt, List.map_cons, if_neg hcqal,
                List.head?_cons, Option.some.injEq] at hx
              rw [← hx]
              simp [hcfree]
          · intro x _
            have hb0 : bfree = false := by
              cases hb2 : bfree
              · rfl
              · exact absurd hb2 hbf
            simp [hb0]
        rw [merge_walk_cons al _ _ hdec]
        rw [ih q rest' hmrest hndrest hw]

/-- C7: on every well-formed heap (no two adjacent free blocks, distinct
    header addresses -- both hold for all heaps hostmem_heap_init and the
    allocator produce), immediately freeing a successful allocation restores
    the free list exactly, and with it the total free size. -/
theorem hostmem_heap_alloc_free_roundtrip (heap : hostmem_heap) (n p : Nat)
    (heap' : hostmem_heap)
    (hmerged : MergedBlocks heap.blocks)
    (hnodup : (heap.blocks.map fun b => b.addr).Nodup)
    (hal : 0 < heap.pagesize)
    (h : hostmem_heap_block_alloc heap n = .ok (p, heap')) :
    hostmem_heap_block_free heap' p = heap ∧
    heapTotalFree (hostmem_heap_block_free heap' p).blocks = heapTotalFree heap.blocks := by
  rw [hostmem_heap_block_alloc, hostmem_heap_block_alloc_aligned] at h
  cases hw : hostmem_heap_alloc_walk (c_size_align n heap.pagesize) heap.pagesize
      heap.blocks with
  | none => rw [hw] at h; exact absurd h (by simp)
  | some pr =>
    obtain ⟨q, bs'⟩ := pr
    rw [hw] at h
    injection h with h'
    obtain ⟨hq, hh⟩ := (Prod.mk.injEq _ _ _ _).mp h'
    obtain ⟨m, hmem, hmf, hp, hsz⟩ := alloc_walk_mem _ _ _ _ _ hw
    have hppos : ¬(q = 0) := by omega
    have hmain := alloc_free_restores (c_size_align n heap.pagesize) heap.pagesize hal
      heap.blocks q bs' hmerged hnodup hw
    have hfree : hostmem_heap_block_free heap' q = heap := by
      rw [← hh, hostmem_heap_block_free, if_neg hppos]
      show { heap with blocks :=
        hostmem_heap_merge_walk heap.pagesize (markFreeAt (q - heap.pagesize) bs') } = heap
      rw [hmain]
    rw [← hq]
    exact ⟨hfree, by rw [hfree]⟩

/-- C7 witness: allocating one page from the fresh 4 MiB heap and freeing it
    restores the original single-block free list. -/
theorem hostmem_heap_alloc_free_roundtrip_witness :
    hostmem_heap_block_free ceHeapB 8192 = ceHeap ∧
    heapTotalFree (hostmem_heap_block_free ceHeapB 8192).blocks =
      heapTotalFree ceHeap.blocks :=
  hostmem_heap_alloc_free_roundtrip ceHeap 4096 8192 ceHeapB
    (by simp [MergedBlocks, ceHeap]) (by decide) (by decide) (by decide)

/-- The C mask-based size alignment equals rounding up to the next multiple
    of the power-of-two alignment (no overflow). -/
theorem c_size_align_eq (sz k : Nat) (hk : k ≤ 64) (hov : sz + 2 ^ k - 1 < 2 ^ 64) :
    c_size_align sz (2 ^ k) = (sz + 2 ^ k - 1) - (sz + 2 ^ k - 1) % 2 ^ k := by
  have hx : (sz + 2 ^ k - 1) % 2 ^ 64 = sz + 2 ^ k - 1 := Nat.mod_eq_of_lt hov
  have hrhs : (sz + 2 ^ k - 1) - (sz + 2 ^ k - 1) % 2 ^ k =
      ((sz + 2 ^ k - 1) >>> k) <<< k := by
    rw [Nat.shiftRight_eq_div_pow, Nat.shiftLeft_eq, Nat.mul_comm]
    have := Nat.div_add_mod (sz + 2 ^ k - 1) (2 ^ k)
    omega
  rw [c_size_align, hx, hrhs]
  apply Nat.eq_of_testBit_eq
  intro i
  simp only [Nat.testBit_land, Nat.testBit_xor, Nat.testBit_two_pow_sub_one,
    Nat.testBit_shiftLeft, Nat.testBit_shiftRight, ge_iff_le]
  by_cases hik : i < k
  · have h64 : i < 64 := by omega
    simp [hik, h64, Nat.not_le.mpr hik]
  · have hki : k ≤ i := by omega
    have he : k + (i - k) = i := by omega
    by_cases h64 : i < 64
    · simp [hik, h64, hki, he]
    · have hb : (sz + 2 ^ k - 1).testBit i = false :=
        Nat.testBit_lt_two_pow
          (lt_of_lt_of_le hov (Nat.pow_le_pow_right (by norm_num) (by omega)))
      simp [hik, h64, hki, he, hb]

/-- The aligned size is at least the requested size. -/
theorem c_size_align_ge (sz k : Nat) (hk : k ≤ 64) (hov : sz + 2 ^ k - 1 < 2 ^ 64) :
    sz ≤ c_size_align sz (2 ^ k) := by
  rw [c_size_align_eq sz k hk hov]
  have hpos : 0 < 2 ^ k := Nat.pos_pow_of_pos _ (by norm_num)
  have := Nat.mod_lt (sz + 2 ^ k - 1) hpos
  omega

/-- Aligning a zero-size request yields zero. -/
theorem c_size_align_zero (k : Nat) (hk : k ≤ 64) : c_size_align 0 (2 ^ k) = 0 := by
  have hpos : 0 < 2 ^ k := Nat.pos_pow_of_pos _ (by norm_num)
  have hle : (2 : Nat) ^ k ≤ 2 ^ 64 := Nat.pow_le_pow_right (by norm_num) hk
  have hov : 0 + 2 ^ k - 1 < 2 ^ 64 := by omega
  rw [c_size_align_eq 0 k hk hov]
  have : (0 + 2 ^ k - 1) % 2 ^ k = 0 + 2 ^ k - 1 := Nat.mod_eq_of_lt (by omega)
  omega

/-- When every block is smaller than the (aligned) request plus alignment,
    the first-fit scan fails. -/
theorem alloc_walk_none (s al : Nat) : ∀ (bs : List hostmem_heap_block),
    (∀ b ∈ bs, b.size < s + al) → hostmem_heap_alloc_walk s al bs = none := by
  intro bs
  induction bs with
  | nil => intro _; rfl
  | cons b rest ih =>
    intro hsmall
    have hb : ¬(s + al ≤ b.size) := by
      have := hsmall b (List.mem_cons_self _ _)
      omega
    have hcond : (b.free && decide (s + al ≤ b.size)) = false := by
      simp [hb]
    rw [hostmem_heap_alloc_walk, if_neg (by simp [hcond]),
      ih fun x hx => hsmall x (List.mem_cons_of_mem _ hx)]

/-- When some free block is large enough, the first-fit scan succeeds. -/
theorem alloc_walk_some_of_exists (s al : Nat) : ∀ (bs : List hostmem_heap_block),
    (∃ b ∈ bs, b.free = true ∧ s + al ≤ b.size) →
    ∃ pr, hostmem_heap_alloc_walk s al bs = some pr := by
  intro bs
  induction bs with
  | nil => intro h; simp at h
  | cons b rest ih =>
    intro h
    by_cases hcond : (b.free && decide (s + al ≤ b.size)) = true
    · rw [hostmem_heap_alloc_walk, if_pos hcond]
      by_cases hsplit : HOSTMEM_HEAP_BLOCK_SIZEOF < b.size - s - al
      · exact ⟨_, by rw [if_pos hsplit]⟩
      · exact ⟨_, by rw [if_neg hsplit]⟩
    · obtain ⟨b', hmem, hbf, hbs⟩ := h
      have hb' : b' ∈ rest := by
        rcases List.mem_cons.mp hmem with h1 | h1
        · exfalso
          apply hcond
          subst h1
          simp [hbf, hbs]
        · exact h1
      obtain ⟨pr, hw⟩ := ih ⟨b', hb', hbf, hbs⟩
      rw [hostmem_heap_alloc_walk, if_neg hcond, hw]
      exact ⟨_, rfl⟩

/-- C1 counterexample: on the fresh two-hugepage heap whose hugepages are not
    physically contiguous, the second allocation lands in the second hugepage;
    its physical address 2^35 + 8192 lies outside
    [heap.phys, heap.phys + heap.size) and the offset identity fails. -/
theorem hostmem_heap_virt_to_phys_counterexample :
    hostmem_heap_block_alloc ceHeap (2 ^ 21) = .ok (8192, ceHeapA) ∧
    hostmem_heap_block_alloc ceHeapA 4096 =
      .ok (2109440, { ceHeap with blocks :=
        [{ addr := 4096, size := 2 ^ 21, free := false },
         { addr := 2105344, size := 4096, free := false },
         { addr := 2113536, size := 2 ^ 21 - 12288, free := true }] }) ∧
    hostmem_heap_block_virt_to_phys ceHeap 2109440 = .ok (2 ^ 35 + 8192) ∧
    ¬(2 ^ 35 + 8192 < ceHeap.phys + ceHeap.size) ∧
    hostmem_heap_block_virt_to_phys ceHeap ceHeap.base = .ok ceHeap.phys ∧
    (2 ^ 35 + 8192) - ceHeap.phys ≠ 2109440 - ceHeap.base := by
  refine ⟨by decide, by decide, by decide, by decide, by decide, by decide⟩

/-- C1 (amended): when the hugepages backing the heap are physically
    contiguous (phys_lut[i] = heap.phys + i * hugepgsz -- the property the
    spec sentence tacitly assumes; the counterexample shows it is needed),
    every successful allocation p satisfies: virt_to_phys(p) succeeds with
    heap.phys + (p - base), which lies in [heap.phys, heap.phys + heap.size),
    virt_to_phys(base) = heap.phys, and the offset identity
    virt_to_phys(p) - virt_to_phys(base) = p - base holds. -/
theorem hostmem_heap_alloc_virt_to_phys_contig (heap : hostmem_heap) (n p : Nat)
    (heap' : hostmem_heap) (k : Nat)
    (hpow : heap.pagesize = 2 ^ k) (hk : k ≤ 64)
    (hn : 0 < n)
    (hov : n + heap.pagesize - 1 < 2 ^ 64)
    (hbase : 0 < heap.base)
    (hblocks : ∀ b ∈ heap.blocks,
      heap.base ≤ b.addr ∧ b.addr + b.size ≤ heap.base + heap.size)
    (hhp : 0 < heap.hugepgsz)
    (hsz : heap.size = heap.nphys * heap.hugepgsz)
    (hnph : 0 < heap.nphys)
    (hlut : ∀ i, i < heap.nphys →
      heap.phys_lut.getD i 0 = heap.phys + i * heap.hugepgsz)
    (h : hostmem_heap_block_alloc heap n = .ok (p, heap')) :
    hostmem_heap_block_virt_to_phys heap p = .ok (heap.phys + (p - heap.base)) ∧
    heap.phys ≤ heap.phys + (p - heap.base) ∧
    heap.phys + (p - heap.base) < heap.phys + heap.size ∧
    hostmem_heap_block_virt_to_phys heap heap.base = .ok heap.phys ∧
    (heap.phys + (p - heap.base)) - heap.phys = p - heap.base := by
  rw [hostmem_heap_block_alloc, hostmem_heap_block_alloc_aligned] at h
  cases hw : hostmem_heap_alloc_walk (c_size_align n heap.pagesize) heap.pagesize
      heap.blocks with
  | none => rw [hw] at h; exact absurd h (by simp)
  | some pr =>
    obtain ⟨q, bs'⟩ := pr
    rw [hw] at h
    injection h with h'
    obtain ⟨hq, -⟩ := (Prod.mk.injEq _ _ _ _).mp h'
    obtain ⟨m, hmem, hmf, hpq, hszm⟩ := alloc_walk_mem _ _ _ _ _ hw
    obtain ⟨hba, hbe⟩ := hblocks m hmem
    have halpos : 0 < heap.pagesize := by
      rw [hpow]
      exact Nat.pos_pow_of_pos _ (by norm_num)
    have hge : n ≤ c_size_align n heap.pagesize := by
      rw [hpow]
      exact c_size_align_ge n k hk (by rw [← hpow]; exact hov)
    have hppos : heap.base < p := by omega
    have hplt : p < heap.base + heap.size := by omega
    have hsizepos : 0 < heap.size := by
      rw [hsz]
      exact Nat.mul_pos hnph hhp
    have hofflt : p - heap.base < heap.size := by omega
    have hidx : (p - heap.base) / heap.hugepgsz < heap.nphys := by
      apply (Nat.div_lt_iff_lt_mul hhp).mpr
      omega
    have hv2p : hostmem_heap_block_virt_to_phys heap p =
        .ok (heap.phys + (p - heap.base)) := by
      rw [hostmem_heap_block_virt_to_phys, if_neg (by omega : ¬(p = 0))]
      rw [if_neg (by
        simp only [Bool.or_eq_true, decide_eq_true_eq, not_or]
        exact ⟨by omega, by omega⟩)]
      rw [if_neg (by omega : ¬(heap.nphys ≤ (p - heap.base) / heap.hugepgsz))]
      have hval : heap.phys_lut.getD ((p - heap.base) / heap.hugepgsz) 0 +
          (p - heap.base) % heap.hugepgsz = heap.phys + (p - heap.base) := by
        rw [hlut _ hidx]
        have hdm := Nat.div_add_mod (p - heap.base) heap.hugepgsz
        have hcomm : (p - heap.base) / heap.hugepgsz * heap.hugepgsz =
            heap.hugepgsz * ((p - heap.base) / heap.hugepgsz) := Nat.mul_comm _ _
        omega
      rw [hval]
    have hv2pb : hostmem_heap_block_virt_to_phys heap heap.base = .ok heap.phys := by
      rw [hostmem_heap_block_virt_to_phys, if_neg (by omega : ¬(heap.base = 0))]
      rw [if_neg (by
        simp only [Bool.or_eq_true, decide_eq_true_eq, not_or]
        exact ⟨by omega, by omega⟩)]
      simp only [Nat.sub_self, Nat.zero_div, Nat.zero_mod]
      rw [if_neg (by omega : ¬(heap.nphys ≤ 0))]
      have := hlut 0 hnph
      rw [this]
      simp
    exact ⟨hv2p, by omega, by omega, hv2pb, by omega⟩

/-- C1 witness: the amended statement on a physically contiguous
    two-hugepage heap. -/
theorem hostmem_heap_alloc_virt_to_phys_contig_witness :
    hostmem_heap_block_virt_to_phys ctHeap 8192 =
      .ok (ctHeap.phys + (8192 - ctHeap.base)) ∧
    hostmem_heap_block_virt_to_phys ctHeap ctHeap.base = .ok ctHeap.phys := by
  have h := hostmem_heap_alloc_virt_to_phys_contig ctHeap 4096 8192 ctHeapB 12
    (by decide) (by decide) (by decide) (by decide) (by decide) (by decide)
    (by decide) (by decide) (by decide) (by decide) (by decide)
  exact ⟨h.1, h.2.2.2.1⟩

/-- C8 counterexample: there is no zero-size check in
    hostmem_heap_block_alloc: on the fresh heap a zero-byte request succeeds
    (rounded to zero, still consuming the alignment-sized header region) and
    returns a payload pointer instead of an invalid-argument error. -/
theorem hostmem_heap_alloc_zero_counterexample :
    hostmem_heap_block_alloc ceHeap 0 =
      .ok (8192, { ceHeap with blocks :=
        [{ addr := 4096, size := 0, free := false },
         { addr := 8192, size := 2 ^ 22 - 4096, free := true }] }) ∧
    (hostmem_heap_block_alloc ceHeap 0).isOk = true := by
  refine ⟨by decide, by decide⟩

/-- C8 (amended): a request strictly larger than the heap size fails with
    errno ENOMEM and a NULL pointer, while a zero-size request does NOT
    return invalid-argument: it succeeds whenever some free block can hold
    the alignment-sized header region. -/
theorem hostmem_heap_alloc_boundary (heap : hostmem_heap) (sz k : Nat)
    (hpow : heap.pagesize = 2 ^ k) (hk : k ≤ 64)
    (hblocks : ∀ b ∈ heap.blocks, b.size ≤ heap.size)
    (hov : sz + heap.pagesize - 1 < 2 ^ 64)
    (hbig : heap.size < sz) :
    hostmem_heap_block_alloc heap sz = .error ENOMEM ∧
    ((∃ b ∈ heap.blocks, b.free = true ∧ heap.pagesize ≤ b.size) →
      ∃ pr, hostmem_heap_block_alloc heap 0 = .ok pr) := by
  constructor
  · rw [hostmem_heap_block_alloc, hostmem_heap_block_alloc_aligned]
    have hge : sz ≤ c_size_align sz heap.pagesize := by
      rw [hpow]
      exact c_size_align_ge sz k hk (by rw [← hpow]; exact hov)
    have hnone := alloc_walk_none (c_size_align sz heap.pagesize) heap.pagesize
      heap.blocks fun b hb => by
        have := hblocks b hb
        omega
    rw [hnone]
  · intro hex
    obtain ⟨b, hmem, hbf, hbsz⟩ := hex
    have hzero : c_size_align 0 heap.pagesize = 0 := by
      rw [hpow]
      exact c_size_align_zero k hk
    obtain ⟨pr, hw⟩ := alloc_walk_some_of_exists 0 heap.pagesize heap.blocks
      ⟨b, hmem, hbf, by omega⟩
    rw [hostmem_heap_block_alloc, hostmem_heap_block_alloc_aligned, hzero, hw]
    exact ⟨_, rfl⟩

/-- C8 witness: the boundary behaviors on the fresh 4 MiB heap. -/
theorem hostmem_heap_alloc_boundary_witness :
    hostmem_heap_block_alloc ceHeap (2 ^ 22 + 1) = .error ENOMEM ∧
    (hostmem_heap_block_alloc ceHeap 0).isOk = true := by
  have h := hostmem_heap_alloc_boundary ceHeap (2 ^ 22 + 1) 12 (by decide) (by decide)
    (by decide) (by decide) (by decide)
  refine ⟨h.1, ?_⟩
  obtain ⟨pr, hpr⟩ := h.2
    ⟨{ addr := 4096, size := 2 ^ 22, free := true }, by decide, rfl, by decide⟩
  rw [hpr]
  rfl
